import Mathlib

/-!
# Verification of the ukg-scraper change-detection and normalization engine

A shallow embedding, in Lean 4, of the pure core of the ukg-scraper
repository: the date utilities and API normalizer (`schedule-utils.js`),
the timecard window/dedup filter (`scrape-all.js`), the scraped-text
shift construction (`scrape-schedule.js`), and the snapshot differs and
discrepancy checker (`run-daily.js`).

Conventions of the embedding:
* JavaScript `null`/`undefined` string fields are modelled as `Option String`
  (`none` = null); JS string truthiness (`""` and `null` are falsy) is
  modelled by `jsTruthy`.
* JS `Date` values are modelled as day numbers (days since 1970-01-01),
  computed by the standard civil-calendar algorithm; `new Date(y, m, d)`
  month/day overflow normalization is reproduced exactly (the algorithm is
  linear in the day argument and the month index is reduced mod 12 with
  carry into the year).
* The ambient clock (`new Date()`), which the design notes direct to be an
  explicit reference-date parameter, is passed explicitly; dates are
  treated timezone-naively (UTC), as the repository's own tests do.
* JS `Map`s keyed by date (insertion preserves position on overwrite) are
  modelled as lists with `insertEntry`/`setShift`; `{}` objects used as
  last-write-wins indexes are modelled by `lastByDate` (reverse find).
* `Array.prototype.sort` (stable since ES2019) with a numeric or
  lexicographic comparator is modelled by the stable `List.insertionSort`
  on the comparator's key.
-/

namespace UKG

/-! ## Calendar arithmetic (Date/Time Utilities) -/

/-- Leap year predicate of the Gregorian calendar. -/
def isLeap (y : Int) : Bool :=
  y % 4 == 0 && (y % 100 != 0 || y % 400 == 0)

/-- Number of days of month `m` (1-12) in year `y`. -/
def daysInMonth (y : Int) (m : Nat) : Nat :=
  if m = 2 then (if isLeap y then 29 else 28)
  else if m = 4 ∨ m = 6 ∨ m = 9 ∨ m = 11 then 30
  else 31

/-- Days since 1970-01-01 of the civil date `y-m-d` (Gregorian calendar,
month 1-12; the formula is linear in `d`, so out-of-range day values
normalize exactly as JavaScript's `Date` constructor does). -/
def daysFromCivil (y : Int) (m : Int) (d : Int) : Int :=
  let y2 := if m ≤ 2 then y - 1 else y
  let era := Int.ediv y2 400
  let yoe := y2 - era * 400
  let mp := Int.emod (m + 9) 12
  let doy := Int.ediv (153 * mp + 2) 5 + d - 1
  let doe := yoe * 365 + Int.ediv yoe 4 - Int.ediv yoe 100 + doy
  era * 146097 + doe - 719468

/-- `new Date(year, monthIndex, day)`: the month index carries into the
year (floor division) and is reduced to `0..11`; day overflow is handled
by `daysFromCivil` being linear in its day argument. -/
def jsDateYMD (year : Int) (monthIndex : Int) (day : Int) : Int :=
  daysFromCivil (year + Int.ediv monthIndex 12) (Int.emod monthIndex 12 + 1) day

/-- The weekday names table of `schedule-utils.js` (`getDay()` order). -/
def DAY_NAMES : List String := ["Sun", "Mon", "Tue", "Wed", "Thu", "Fri", "Sat"]

/-- The month-name table of `run-daily.js`. -/
def MONTHS : List String :=
  ["Jan", "Feb", "Mar", "Apr", "May", "Jun", "Jul", "Aug", "Sep", "Oct", "Nov", "Dec"]

/-- `String.split` on a one-character separator, with JavaScript's
`split` semantics (empty pieces are kept; the empty string yields one
empty piece). -/
def splitOnChar (sep : Char) : List Char → List (List Char)
  | [] => [[]]
  | c :: cs =>
    if c == sep then [] :: splitOnChar sep cs
    else
      match splitOnChar sep cs with
      | h :: t => (c :: h) :: t
      | [] => [[c]]

/-- The numeric value of a nonempty all-digit character list; `none`
otherwise (the repository only parses digit groups, where this agrees
with JS `Number`/`parseInt`). -/
def digitsToNat? (cs : List Char) : Option Nat :=
  if !cs.isEmpty && cs.all Char.isDigit then
    some (cs.foldl (fun n c => n * 10 + (c.toNat - 48)) 0)
  else none

/-- The numeric value of a digit-character list (`parseInt` on a digit
group). -/
def digitsVal (cs : List Char) : Nat :=
  cs.foldl (fun n c => n * 10 + (c.toNat - 48)) 0

/-- Parse a strict ISO calendar date `YYYY-MM-DD` (the only shape the
repository ever feeds to `new Date(dateStr + "T00:00:00")`; JavaScript's
ISO parser rejects out-of-range months/days with an Invalid Date). -/
def parseIsoDate (s : String) : Option (Int × Nat × Nat) :=
  match splitOnChar '-' s.data with
  | [ys, ms, ds] =>
    if ys.length = 4 ∧ ms.length = 2 ∧ ds.length = 2 then
      match digitsToNat? ys, digitsToNat? ms, digitsToNat? ds with
      | some y, some m, some d =>
        if 1 ≤ m ∧ m ≤ 12 ∧ 1 ≤ d ∧ d ≤ daysInMonth (y : Int) m then
          some ((y : Int), m, d)
        else none
      | _, _, _ => none
    else none
  | _ => none

/-- Day number of a parsed ISO date. -/
def isoDays (y : Int) (m d : Nat) : Int := daysFromCivil y (m : Int) (d : Int)

/-- Zero-pad a numeral to two digits (`String.padStart(2, "0")`). -/
def pad2 (n : Nat) : String :=
  if n < 10 then "0" ++ toString n else toString n

/-- Render `y-m-d` as an ISO date string `YYYY-MM-DD`. -/
def isoDateString (y : Int) (m d : Nat) : String :=
  toString y ++ "-" ++ pad2 m ++ "-" ++ pad2 d

/-- Weekday index 0-6 (0 = Sunday) of a day number (1970-01-01 was a
Thursday, index 4). -/
def weekdayIdx (days : Int) : Nat := (Int.emod (days + 4) 7).toNat

/-- `dayOfWeek` of `schedule-utils.js`: short day name of an ISO date
string; `none` models the `undefined` that JavaScript produces when the
date string does not parse. -/
def dayOfWeek (dateStr : String) : Option String :=
  match parseIsoDate dateStr with
  | some (y, m, d) => DAY_NAMES.get? (weekdayIdx (isoDays y m d))
  | none => none

/-! ## Data model -/

/-- One calendar day's work status (the `Shift` typedef). `day` is
`Option` because JavaScript leaves it `undefined` when the date string is
unresolvable; `endTime` renders the source field `end`, a Lean keyword. -/
structure Shift where
  date : String
  day : Option String
  start : Option String
  endTime : Option String
  off : Bool
  note : Option String
deriving DecidableEq, Repr

/-- One timecard row (the `TimecardEntry` typedef). -/
structure TimecardEntry where
  date : String
  day : String
  schedule : Option String := none
  absence : Option String := none
  clockIn1 : Option String := none
  clockOut1 : Option String := none
  clockIn2 : Option String := none
  clockOut2 : Option String := none
  payCode : Option String := none
  amount : Option String := none
  shiftTotal : Option String := none
  dailyTotal : Option String := none
deriving DecidableEq, Repr

structure RegularShift where
  startDateTime : String
  endDateTime : String
deriving DecidableEq, Repr

structure HolidayEntry where
  displayName : String
deriving DecidableEq, Repr

structure HolidayListItem where
  date : String
  holidays : List HolidayEntry
deriving DecidableEq, Repr

structure TimeOffPeriod where
  startDate : String
deriving DecidableEq, Repr

structure RequestSubType where
  localizedName : String
deriving DecidableEq, Repr

structure CurrentStatus where
  name : String
deriving DecidableEq, Repr

structure TimeOffRequest where
  requestSubType : RequestSubType
  currentStatus : CurrentStatus
  periods : List TimeOffPeriod
deriving DecidableEq, Repr

/-- The schedule API response bundle; `apiResponse.regularShifts || []`
makes an absent array behave as the empty list. -/
structure ScheduleApiResponse where
  regularShifts : List RegularShift := []
  holidayList : List HolidayListItem := []
  timeOffRequests : List TimeOffRequest := []
deriving DecidableEq, Repr

/-- A schedule snapshot `{ shifts: [...] }`. -/
structure ScheduleData where
  shifts : List Shift
deriving DecidableEq, Repr

/-- A timecard snapshot `{ entries: [...] }`. -/
structure TimecardData where
  entries : List TimecardEntry
deriving DecidableEq, Repr

/-- JS string truthiness for nullable string fields: `null`/`undefined`
and `""` are falsy. -/
def jsTruthy : Option String → Bool
  | none => false
  | some s => !s.data.isEmpty

/-- `x || d` for a nullable string (falls back also on `""`). -/
def jsOr (x : Option String) (d : String) : String :=
  match x with
  | some s => if s.data.isEmpty then d else s
  | none => d

/-! ## Record Normalizer, API mode (`mapApiToShifts` of schedule-utils.js) -/

/-- `split("T")[0]` — the date part of an ISO datetime. -/
def isoDatePart (s : String) : String :=
  ((splitOnChar 'T' s.data).headD []).asString

/-- The longest decimal-digit prefix, rendered back as a numeral:
`parseInt` semantics on the digit strings the scraper produces (`"NaN"`
when there is no digit prefix). -/
def jsParseIntRender (s : String) : String :=
  let ds := s.data.takeWhile Char.isDigit
  if ds.isEmpty then "NaN"
  else toString (ds.foldl (fun n c => n * 10 + (c.toNat - 48)) 0)

/-- `formatTime` of schedule-utils.js: hour:minute without leading zero on
the hour, from an ISO datetime (`${parseInt(hh)}:${mm}`). -/
def formatTime (isoDateTime : String) : String :=
  match splitOnChar 'T' isoDateTime.data with
  | _ :: timePart :: _ =>
    match splitOnChar ':' timePart with
    | hh :: mm :: _ => jsParseIntRender hh.asString ++ ":" ++ mm.asString
    | _ => "NaN:undefined"
  | _ => "NaN:undefined"

/-- `Map.set` keyed by `Shift.date`: overwrite in place, else append
(JS `Map` preserves insertion position on overwrite). -/
def setShift (m : List Shift) (s : Shift) : List Shift :=
  if m.any (fun t => t.date == s.date) then
    m.map (fun t => if t.date == s.date then s else t)
  else m ++ [s]

/-- `Map.get` keyed by `Shift.date`. -/
def getShift (m : List Shift) (d : String) : Option Shift :=
  m.find? (fun t => t.date == d)

/-- `Map.has` keyed by `Shift.date`. -/
def hasShift (m : List Shift) (d : String) : Bool :=
  m.any (fun t => t.date == d)

/-- The mutation `existing.note = name` on the shift stored under `d`. -/
def setNote (m : List Shift) (d : String) (name : String) : List Shift :=
  m.map (fun t => if t.date == d then { t with note := some name } else t)

/-- The `Shift` built from one regular-shift record. -/
def shiftOfRegular (rs : RegularShift) : Shift :=
  let date := isoDatePart rs.startDateTime
  { date := date, day := dayOfWeek date,
    start := some (formatTime rs.startDateTime),
    endTime := some (formatTime rs.endDateTime),
    off := false, note := none }

/-- `item.holidays?.[0]?.displayName || "Holiday"` (the `||` also takes
the fallback for an empty display name, which is falsy). -/
def holidayName (item : HolidayListItem) : String :=
  match item.holidays.head? with
  | some h => if h.displayName.data.isEmpty then "Holiday" else h.displayName
  | none => "Holiday"

/-- The `off=true` shift inserted for a holiday with no regular shift. -/
def offShift (date : String) (note : String) : Shift :=
  { date := date, day := dayOfWeek date, start := none, endTime := none,
    off := true, note := some note }

/-- `"<localized sub-type name> (<status name>)"`. -/
def torNote (tor : TimeOffRequest) : String :=
  tor.requestSubType.localizedName ++ " (" ++ tor.currentStatus.name ++ ")"

/-- The `off=true` shift inserted for a time-off period. -/
def torShift (tor : TimeOffRequest) (date : String) : Shift :=
  { date := date, day := dayOfWeek date, start := none, endTime := none,
    off := true, note := some (torNote tor) }

/-- Phase 1 step of `mapApiToShifts`: map one regular shift. -/
def applyRegular (m : List Shift) (rs : RegularShift) : List Shift :=
  setShift m (shiftOfRegular rs)

/-- Phase 2 step of `mapApiToShifts`: annotate an existing shift with the
holiday name, or insert an `off=true` shift. -/
def applyHoliday (m : List Shift) (item : HolidayListItem) : List Shift :=
  let name := holidayName item
  if hasShift m item.date then setNote m item.date name
  else setShift m (offShift item.date name)

/-- Phase 3 step of `mapApiToShifts`: insert time-off shifts only for
dates not yet present. -/
def applyTimeOff (m : List Shift) (tor : TimeOffRequest) : List Shift :=
  tor.periods.foldl
    (fun acc p =>
      if hasShift acc p.startDate then acc
      else setShift acc (torShift tor p.startDate))
    m

/-- The per-date map after phase 1 (regular shifts). -/
def regularMap (resp : ScheduleApiResponse) : List Shift :=
  resp.regularShifts.foldl applyRegular []

/-- The last-listed regular shift whose date part is `d` (the one whose
`Shift` survives the keyed overwrites of phase 1). -/
def lastRegularFor (rss : List RegularShift) (d : String) : Option RegularShift :=
  rss.reverse.find? (fun rs => isoDatePart rs.startDateTime == d)

/-- The last-listed holiday item for date `d` (the one whose name survives
the note overwrites of phase 2). -/
def lastHolidayFor (items : List HolidayListItem) (d : String) : Option HolidayListItem :=
  items.reverse.find? (fun it => it.date == d)

/-- The per-date map after phases 1-2 (regular shifts, then holidays). -/
def holidayMap (resp : ScheduleApiResponse) : List Shift :=
  resp.holidayList.foldl applyHoliday (regularMap resp)

/-- The per-date map after all three phases. -/
def fullMap (resp : ScheduleApiResponse) : List Shift :=
  resp.timeOffRequests.foldl applyTimeOff (holidayMap resp)

/-- `mapApiToShifts` of schedule-utils.js. The final sort
`a.date.localeCompare(b.date)` is modelled as a stable sort by code-point
lexicographic order on the date string (for the ASCII ISO-date keys this
mapping produces, locale collation coincides with code-point order, and
JS `Array.prototype.sort` is stable). -/
def mapApiToShifts (apiResponse : ScheduleApiResponse) : List Shift :=
  List.insertionSort (fun a b => a.date.data ≤ b.date.data) (fullMap apiResponse)

/-! ## Timecard window/dedup filter (`scrape-all.js`) -/

/-- `mmdd.split("/").map(Number)` destructured to its first two parts;
`none` models the `NaN` components that make the JS `Date` invalid (an
invalid date fails every window comparison; the scraper only produces
`\d{2}/\d{2}` strings, where this agrees with `Number`). -/
def parseMMDD (s : String) : Option (Nat × Nat) :=
  match splitOnChar '/' s.data with
  | a :: b :: _ =>
    match digitsToNat? a, digitsToNat? b with
    | some mm, some dd => some (mm, dd)
    | _, _ => none
  | _ => none

/-- `resolveEntryDate` of scrape-all.js: resolve `MM/DD` to a day number
using the reference date's year; December entries resolve to the prior
year when the reference month is January (`getMonth() === 0`). -/
def resolveEntryDate (mmdd : String) (refYear : Int) (refMonth : Nat) : Option Int :=
  (parseMMDD mmdd).map fun p =>
    let year := if p.1 = 12 ∧ refMonth = 1 then refYear - 1 else refYear
    jsDateYMD year ((p.1 : Int) - 1) (p.2 : Int)

/-- The window test `entryDate >= cutoff && entryDate <= ref` (an
unresolvable date fails it, as JS Invalid Date comparisons do). -/
def inWindow (refYear : Int) (refMonth : Nat) (refDays : Int) (e : TimecardEntry) : Bool :=
  match resolveEntryDate e.date refYear refMonth with
  | some dt => decide (refDays - 14 ≤ dt) && decide (dt ≤ refDays)
  | none => false

/-- `Map.set` keyed by `TimecardEntry.date` (overwrite in place, else
append). -/
def insertEntry (m : List TimecardEntry) (e : TimecardEntry) : List TimecardEntry :=
  if m.any (fun x => x.date == e.date) then
    m.map (fun x => if x.date == e.date then e else x)
  else m ++ [e]

/-- Sort key of the final sort `resolveEntryDate(a.date) - resolveEntryDate(b.date)`
(every entry that reaches the sort resolved successfully). -/
def entryKey (refYear : Int) (refMonth : Nat) (e : TimecardEntry) : Int :=
  (resolveEntryDate e.date refYear refMonth).getD 0

/-- `filterTimecardEntries` of scrape-all.js: keep entries within the
trailing 14-day window ending at the reference date, dedup by `MM/DD`
(last occurrence wins) and sort ascending by resolved date (a stable
sort, as JS `Array.prototype.sort` is). -/
def filterTimecardEntries (entries : List TimecardEntry) (referenceDateStr : String) :
    List TimecardEntry :=
  match parseIsoDate referenceDateStr with
  | none => []
  | some (y, m, d) =>
    let refDays := isoDays y m d
    let byDate := entries.foldl
      (fun acc e => if inWindow y m refDays e then insertEntry acc e else acc) []
    List.insertionSort (fun a b => entryKey y m a ≤ entryKey y m b) byDate

/-! ## Snapshot differs and discrepancy checker (`run-daily.js`) -/

/-- Format an ISO date with its day name as `"Fri 20 Feb"`
(`formatIsoDate`); a `none` day renders as JS interpolation of
`undefined` would. -/
def formatIsoDate (day : Option String) (isoDate : String) : String :=
  let mm := jsParseIntRender ((isoDate.data.drop 5).take 2).asString
  let dd := jsParseIntRender (isoDate.data.drop 8).asString
  let month :=
    match mm.toNat? with
    | some n => (MONTHS.get? (n - 1)).getD "undefined"
    | none => "undefined"
  (day.getD "undefined") ++ " " ++ dd ++ " " ++ month

/-- Format an `MM/DD` date with its day name as `"Fri 20 Feb"`
(`formatMmdd`). -/
def formatMmdd (day : String) (mmdd : String) : String :=
  match parseMMDD mmdd with
  | some p => day ++ " " ++ toString p.2 ++ " " ++ (MONTHS.get? (p.1 - 1)).getD "undefined"
  | none => day ++ " NaN undefined"

/-- `formatAlert`: title, dash underline, items joined by blank lines. -/
def formatAlert (title : String) (items : List String) : String :=
  title ++ "\n" ++ String.mk (List.replicate title.length '-') ++ "\n"
    ++ String.intercalate "\n\n" items

/-- `formatShift` of run-daily.js. -/
def formatShift (s : Shift) : String :=
  if s.off then jsOr s.note "Day Off"
  else if jsTruthy s.start && jsTruthy s.endTime then
    (s.start.getD "") ++ "–" ++ (s.endTime.getD "")
  else if jsTruthy s.note then s.note.getD ""
  else "No details"

/-- The last-write-wins index `obj[key] = value` built by the differs,
read back at a key: the last element with that date. -/
def lastShiftByDate (l : List Shift) (d : String) : Option Shift :=
  l.reverse.find? (fun s => s.date == d)

/-- The per-current-shift description of `detectScheduleChanges`: `New`
when the date was absent before, `Changed` when `start`/`end`/`off`
differ, nothing otherwise. -/
def scheduleChangeFor (olds : List Shift) (s : Shift) : Option String :=
  let label := formatIsoDate s.day s.date
  match lastShiftByDate olds s.date with
  | none => some (label ++ " — New\n  " ++ formatShift s)
  | some prev =>
    if prev.start ≠ s.start ∨ prev.endTime ≠ s.endTime ∨ prev.off ≠ s.off then
      some (label ++ " — Changed\n  Was: " ++ formatShift prev ++ "\n  Now: " ++ formatShift s)
    else none

/-- `detectScheduleChanges` of run-daily.js. -/
def detectScheduleChanges (oldData : Option ScheduleData) (newData : ScheduleData) :
    Option (List String) :=
  match oldData with
  | none => none
  | some od =>
    let changes := newData.shifts.filterMap (scheduleChangeFor od.shifts)
    if changes.length > 0 then some changes else none

/-- `parseTime` applied to the character list of the string: the regex
`^(\d{1,2}):(\d{2})$` with `parseInt` on both groups. -/
def parseTimeChars : List Char → Option Nat
  | [h1, c, m1, m2] =>
    if h1.isDigit && (c == ':') && m1.isDigit && m2.isDigit then
      some ((h1.toNat - 48) * 60 + ((m1.toNat - 48) * 10 + (m2.toNat - 48)))
    else none
  | [h1, h2, c, m1, m2] =>
    if h1.isDigit && h2.isDigit && (c == ':') && m1.isDigit && m2.isDigit then
      some (((h1.toNat - 48) * 10 + (h2.toNat - 48)) * 60
        + ((m1.toNat - 48) * 10 + (m2.toNat - 48)))
    else none
  | _ => none

/-- `parseTime` of run-daily.js: minutes since midnight, `none` when the
string does not match `^(\d{1,2}):(\d{2})$` (the empty string is caught
by the `!str` guard). -/
def parseTime (str : String) : Option Nat := parseTimeChars str.data

/-- `parseTime` lifted to the arithmetic position it occupies in
`Math.abs(parseTime(a) - parseTime(b))`: JS coerces a `null` operand to
`0`. -/
def timeVal (s : String) : Int := ((parseTime s).getD 0 : Int)

/-- The clock-in boundary lines of `detectTimecardDiscrepancy`: guarded by
truthiness of both strings, one line when the absolute difference exceeds
the 50-minute threshold. -/
def clockInLines (e : TimecardEntry) (sh : Shift) : List String :=
  if jsTruthy e.clockIn1 && jsTruthy sh.start then
    let c := (e.clockIn1).getD ""
    let s := (sh.start).getD ""
    let diff := (timeVal c - timeVal s).natAbs
    if 50 < diff then
      ["  Clock In:  " ++ c ++ " (scheduled " ++ s ++ ", " ++ toString diff ++ " min off)"]
    else []
  else []

/-- The clock-out boundary lines of `detectTimecardDiscrepancy`. -/
def clockOutLines (e : TimecardEntry) (sh : Shift) : List String :=
  if jsTruthy e.clockOut1 && jsTruthy sh.endTime then
    let c := (e.clockOut1).getD ""
    let s := (sh.endTime).getD ""
    let diff := (timeVal c - timeVal s).natAbs
    if 50 < diff then
      ["  Clock Out: " ++ c ++ " (scheduled " ++ s ++ ", " ++ toString diff ++ " min off)"]
    else []
  else []

/-- `detectTimecardDiscrepancy` of run-daily.js. The reference date (the
parsed `dateOverride`, or the ambient current date) is passed explicitly
as `y-m-d`. -/
def detectTimecardDiscrepancy (scheduleData : Option ScheduleData)
    (timecardData : Option TimecardData) (y : Int) (m d : Nat) : Option (List String) :=
  match scheduleData, timecardData with
  | some sd, some td =>
    let todayStr := isoDateString y m d
    match sd.shifts.find? (fun s => s.date == todayStr && !s.off) with
    | none => none
    | some todayShift =>
      let mmdd := pad2 m ++ "/" ++ pad2 d
      match td.entries.find? (fun e => e.date == mmdd) with
      | none => none
      | some todayEntry =>
        if !jsTruthy todayEntry.clockIn1 && !jsTruthy todayEntry.clockOut1 then none
        else
          let lines := clockInLines todayEntry todayShift ++ clockOutLines todayEntry todayShift
          if lines.isEmpty then none
          else some [formatIsoDate todayShift.day todayStr ++ "\n" ++ String.intercalate "\n" lines]
  | _, _ => none

/-- The last-write-wins index for timecard entries. -/
def lastEntryByDate (l : List TimecardEntry) (d : String) : Option TimecardEntry :=
  l.reverse.find? (fun e => e.date == d)

/-- The tracked fields of `detectTimecardChanges`, paired with their
human-readable labels (`FIELD_LABELS`), in the fixed comparison order. -/
def trackedFields : List ((TimecardEntry → Option String) × String) :=
  [(TimecardEntry.clockIn1, "Clock In"), (TimecardEntry.clockOut1, "Clock Out"),
   (TimecardEntry.clockIn2, "Clock In 2"), (TimecardEntry.clockOut2, "Clock Out 2"),
   (TimecardEntry.payCode, "Pay Code"), (TimecardEntry.amount, "Amount"),
   (TimecardEntry.shiftTotal, "Shift Total"), (TimecardEntry.dailyTotal, "Daily Total")]

/-- The per-current-entry description of `detectTimecardChanges`. -/
def timecardChangeFor (olde : List TimecardEntry) (e : TimecardEntry) : Option String :=
  let label := formatMmdd e.day e.date
  match lastEntryByDate olde e.date with
  | none => some (label ++ " — New entry")
  | some prev =>
    let diffs := trackedFields.filterMap fun fl =>
      if fl.1 prev ≠ fl.1 e then
        some ("  " ++ fl.2 ++ ": " ++ (fl.1 prev).getD "—" ++ " → " ++ (fl.1 e).getD "—")
      else none
    if diffs.length > 0 then some (label ++ " — Changed\n" ++ String.intercalate "\n" diffs)
    else none

/-- `detectTimecardChanges` of run-daily.js. -/
def detectTimecardChanges (oldData : Option TimecardData) (newData : TimecardData) :
    Option (List String) :=
  match oldData with
  | none => none
  | some od =>
    let changes := newData.entries.filterMap (timecardChangeFor od.entries)
    if changes.length > 0 then some changes else none

/-! ## Scraped-text shift construction (`scrape-schedule.js`, main loop) -/

/-- Does `pat` occur starting at the head of `l`? -/
def startsWithChars : List Char → List Char → Bool
  | _, [] => true
  | [], _ :: _ => false
  | c :: cs, p :: ps => c == p && startsWithChars cs ps

/-- Does `pat` occur anywhere in `l` (regex `.test` of a literal)? -/
def hasSubstr : List Char → List Char → Bool
  | [], pat => pat.isEmpty
  | c :: cs, pat => startsWithChars (c :: cs) pat || hasSubstr cs pat

/-- A regex word character (`\w`). -/
def isWordChar (c : Char) : Bool := c.isAlphanum || c == '_'

/-- Does `pat` occur in `l` followed by a word boundary (`pat\b`)? -/
def hasSubstrWB : List Char → List Char → Bool
  | [], pat => pat.isEmpty
  | c :: cs, pat =>
    (startsWithChars (c :: cs) pat
      && match (c :: cs).drop pat.length with
         | [] => true
         | d :: _ => !isWordChar d)
    || hasSubstrWB cs pat

/-- The off/leave vocabulary test (`offPatterns.test(line)`): the regex
`/Day Off|nothing planned|Scheduled Off|No Shift|Off Day|ROI\b|TOR\b|PTO\b|Annual Leave|Leave|休|Absence|Holiday/i`
applied case-insensitively. -/
def offPatternsTest (line : String) : Bool :=
  let l := line.data.map Char.toLower
  hasSubstr l "day off".data || hasSubstr l "nothing planned".data
    || hasSubstr l "scheduled off".data || hasSubstr l "no shift".data
    || hasSubstr l "off day".data || hasSubstrWB l "roi".data
    || hasSubstrWB l "tor".data || hasSubstrWB l "pto".data
    || hasSubstr l "annual leave".data || hasSubstr l "leave".data
    || hasSubstr l "休".data || hasSubstr l "absence".data
    || hasSubstr l "holiday".data

/-- Match `\d{1,2}:\d{2}` at the head of the list, returning the matched
characters and the remainder. The greedy two-digit hour backtracks to one
digit only when the second character is the colon, which the digit test
already decides. -/
def matchHM : List Char → Option (List Char × List Char)
  | a :: b :: c :: d :: e :: rest =>
    if a.isDigit && b.isDigit then
      if c == ':' && d.isDigit && e.isDigit then some ([a, b, c, d, e], rest) else none
    else if a.isDigit && b == ':' && c.isDigit && d.isDigit then
      some ([a, b, c, d], e :: rest)
    else none
  | [a, b, c, d] =>
    if a.isDigit && b == ':' && c.isDigit && d.isDigit then some ([a, b, c, d], [])
    else none
  | _ => none

/-- Attempt the time-range regex
`(\d{1,2}:\d{2})\s*[–-]\s*(\d{1,2}:\d{2})` anchored at the head of the
list, returning the two captured groups. -/
def matchRangeAt (cs : List Char) : Option (String × String) :=
  match matchHM cs with
  | none => none
  | some (g1, rest) =>
    match rest.dropWhile Char.isWhitespace with
    | [] => none
    | c :: r2 =>
      if c == '–' || c == '-' then
        match matchHM (r2.dropWhile Char.isWhitespace) with
        | some (g2, _) => some (g1.asString, g2.asString)
        | none => none
      else none

/-- Leftmost match of the time-range regex in a string (`String.match`
returning the two groups). -/
def findTimeRange : List Char → Option (String × String)
  | [] => none
  | c :: rest =>
    match matchRangeAt (c :: rest) with
    | some r => some r
    | none => findTimeRange rest

/-- The `Shift` pushed by the `scrape-schedule.js` main loop for one
parsed raw day (`{day, dateNum, details}`) whose date resolved to
`fullDate`: a time range is extracted from the joined details, day-off
status from the off vocabulary on any detail line, and the note is the
matched off line, else the joined raw details when no time range parsed,
else null. -/
def scrapedShift (day : String) (fullDate : String) (details : List String) : Shift :=
  let detailText := String.intercalate " " details
  let timeMatch := findTimeRange detailText.data
  let isOff := details.any offPatternsTest
  let offDetail := if isOff then details.find? offPatternsTest else none
  { date := fullDate, day := some day,
    start := timeMatch.map Prod.fst,
    endTime := timeMatch.map Prod.snd,
    off := isOff,
    note :=
      if isOff then offDetail
      else if timeMatch.isNone && decide (0 < details.length) then
        some (String.intercalate " | " details)
      else none }

/-! ## Concrete inputs used by witnesses and counterexamples -/

/-- Timecard entries of the spec's dedup-and-window scenario. -/
def entA : TimecardEntry := { date := "02/20", day := "Fri" }

def entB : TimecardEntry := { date := "02/15", day := "Sun" }

def entC : TimecardEntry := { date := "02/11", day := "Wed" }

/-- An entry dated exactly 14 days before the reference `2026-02-24`. -/
def entD : TimecardEntry := { date := "02/10", day := "Tue" }

/-- An entry dated after the reference `2026-02-24`. -/
def entE : TimecardEntry := { date := "02/25", day := "Wed" }

/-- A schedule shift used by the discrepancy-checker witnesses. -/
def shiftW : Shift :=
  { date := "2026-02-20", day := some "Fri", start := some "9:00",
    endTime := some "17:00", off := false, note := none }

/-- Punches 51 minutes off the scheduled start and exactly 50 minutes off
the scheduled end. -/
def entryW : TimecardEntry :=
  { date := "02/20", day := "Fri", clockIn1 := some "9:51", clockOut1 := some "17:50" }

/-- An entry whose clock-in string is present but unparseable. -/
def entryBogus : TimecardEntry :=
  { date := "02/20", day := "Fri", clockIn1 := some "bogus" }

/-- `shiftW` with only the note changed (same start, end, off). -/
def shiftWNote : Shift := { shiftW with note := some "Some new note" }

/-- A shift on a different date than `shiftW`. -/
def shiftX : Shift :=
  { date := "2026-02-21", day := some "Sat", start := some "8:00",
    endTime := some "16:00", off := false, note := none }

/-- A raw scraped day whose details contain both a parsable time range and
an off-vocabulary line. -/
def detailsOffRange : List String := ["9:00-17:00", "Annual Leave"]

/-- An API response whose single holiday has an empty display name. -/
def respEmptyName : ScheduleApiResponse :=
  { holidayList := [{ date := "2026-12-25", holidays := [{ displayName := "" }] }] }

/-- A regular shift record used by several witnesses. -/
def regW : RegularShift :=
  { startDateTime := "2026-02-21T09:00:00", endDateTime := "2026-02-21T14:00:00" }

/-- A time-off request covering a worked date and a free date. -/
def torReq : TimeOffRequest :=
  { requestSubType := { localizedName := "ROI PT Staff TOR" },
    currentStatus := { name := "Full" },
    periods := [{ startDate := "2026-02-21" }, { startDate := "2026-02-22" }] }

/-- An API response with a regular shift and a time-off request on the
same date, plus a time-off-only date. -/
def respTor : ScheduleApiResponse :=
  { regularShifts := [regW], timeOffRequests := [torReq] }

/-- A holiday item used by several witnesses. -/
def holW : HolidayListItem :=
  { date := "2026-02-21", holidays := [{ displayName := "St Patricks Day" }] }

/-- An API response with a regular shift and a holiday on the same date. -/
def respHol : ScheduleApiResponse :=
  { regularShifts := [regW], holidayList := [holW] }

/-! ## Helper lemmas: the keyed-map model -/

theorem mem_insertEntry {m : List TimecardEntry} {e x : TimecardEntry} :
    x ∈ insertEntry m e ↔ x = e ∨ (x ∈ m ∧ x.date ≠ e.date) := by
  unfold insertEntry
  rcases Or.symm (Bool.eq_false_or_eq_true (m.any (fun z => z.date == e.date))) with h | h
  · have hall : ∀ t ∈ m, t.date ≠ e.date := by
      intro t ht hc
      have hy : m.any (fun z => z.date == e.date) = true :=
        List.any_eq_true.mpr ⟨t, ht, beq_iff_eq.mpr hc⟩
      rw [h] at hy
      exact Bool.false_ne_true hy
    rw [if_neg (by simp [h]), List.mem_append, List.mem_singleton]
    constructor
    · rintro (hx | rfl)
      · exact Or.inr ⟨hx, hall x hx⟩
      · exact Or.inl rfl
    · rintro (rfl | ⟨hx, _⟩)
      · exact Or.inr rfl
      · exact Or.inl hx
  · rw [if_pos h, List.mem_map]
    constructor
    · rintro ⟨t, ht, rfl⟩
      rcases Or.symm (Bool.eq_false_or_eq_true (t.date == e.date)) with hd | hd
      · rw [if_neg (by simp [hd])]
        exact Or.inr ⟨ht, beq_eq_false_iff_ne.mp hd⟩
      · rw [if_pos hd]
        exact Or.inl rfl
    · rintro (rfl | ⟨hx, hne⟩)
      · obtain ⟨t, ht, hdt⟩ := List.any_eq_true.mp h
        exact ⟨t, ht, by simp [hdt]⟩
      · exact ⟨x, hx, by simp [beq_eq_false_iff_ne.mpr hne]⟩

theorem nodup_dates_insertEntry {m : List TimecardEntry} {e : TimecardEntry}
    (h : (m.map TimecardEntry.date).Nodup) :
    ((insertEntry m e).map TimecardEntry.date).Nodup := by
  unfold insertEntry
  rcases Or.symm (Bool.eq_false_or_eq_true (m.any (fun z => z.date == e.date))) with hany | hany
  · rw [if_neg (by simp [hany]), List.map_append, List.nodup_append]
    refine ⟨h, by simp, ?_⟩
    intro a ha hb
    simp only [List.map_cons, List.map_nil, List.mem_singleton] at hb
    subst hb
    obtain ⟨t, ht, hdt⟩ := List.mem_map.mp ha
    have hy : m.any (fun z => z.date == e.date) = true :=
      List.any_eq_true.mpr ⟨t, ht, beq_iff_eq.mpr hdt⟩
    rw [hany] at hy
    exact Bool.false_ne_true hy
  · rw [if_pos hany]
    have heq : (m.map fun x => if x.date == e.date then e else x).map TimecardEntry.date
        = m.map TimecardEntry.date := by
      rw [List.map_map]
      apply List.map_congr_left
      intro t _
      rcases Or.symm (Bool.eq_false_or_eq_true (t.date == e.date)) with hd | hd
      · simp [Function.comp, hd]
      · simp [Function.comp, hd, (beq_iff_eq.mp hd).symm]
    rw [heq]; exact h

theorem getLast?_filter_concat {α : Type} (q : α → Bool) (l : List α) (e : α) :
    ((l ++ [e]).filter q).getLast? = if q e then some e else (l.filter q).getLast? := by
  rw [List.filter_append]
  by_cases h : q e = true
  · simp [h, List.getLast?_concat]
  · simp [h]

theorem dedupFold_spec (P : TimecardEntry → Bool) :
    ∀ (l acc pre : List TimecardEntry),
      (∀ x, x ∈ acc ↔ ((pre.filter fun z => P z && z.date == x.date).getLast? = some x)) →
      (acc.map TimecardEntry.date).Nodup →
      (∀ x, x ∈ l.foldl (fun a e => if P e then insertEntry a e else a) acc ↔
        (((pre ++ l).filter fun z => P z && z.date == x.date).getLast? = some x))
      ∧ ((l.foldl (fun a e => if P e then insertEntry a e else a) acc).map
          TimecardEntry.date).Nodup
  | [], acc, pre, hmem, hnd => by
    rw [List.foldl_nil, List.append_nil]
    exact ⟨hmem, hnd⟩
  | e :: t, acc, pre, hmem, hnd => by
    have step_mem : ∀ x, x ∈ (if P e then insertEntry acc e else acc) ↔
        (((pre ++ [e]).filter fun z => P z && z.date == x.date).getLast? = some x) := by
      intro x
      rw [getLast?_filter_concat]
      rcases Or.symm (Bool.eq_false_or_eq_true (P e)) with hP | hP
      · have hq : (P e && (e.date == x.date)) = false := by simp [hP]
        rw [if_neg (fun hc => Bool.false_ne_true (hP ▸ hc)), if_neg (by simp [hq])]
        exact hmem x
      · rw [if_pos hP]
        by_cases hxe : x.date = e.date
        · have hq : (P e && (e.date == x.date)) = true := by simp [hP, hxe]
          rw [if_pos (by simp [hq]), mem_insertEntry]
          constructor
          · rintro (rfl | ⟨_, hne⟩)
            · rfl
            · exact absurd hxe hne
          · intro hx
            exact Or.inl (Option.some.inj hx).symm
        · have hq : (P e && (e.date == x.date)) = false := by
            simp [beq_eq_false_iff_ne.mpr (fun hc => hxe hc.symm)]
          rw [if_neg (by simp [hq]), mem_insertEntry, ← hmem x]
          constructor
          · rintro (rfl | ⟨hx, _⟩)
            · exact absurd rfl hxe
            · exact hx
          · intro hx
            exact Or.inr ⟨hx, hxe⟩
    have step_nd : ((if P e then insertEntry acc e else acc).map TimecardEntry.date).Nodup := by
      rcases Or.symm (Bool.eq_false_or_eq_true (P e)) with hP | hP
      · rw [if_neg (by simp [hP])]; exact hnd
      · rw [if_pos hP]; exact nodup_dates_insertEntry hnd
    have ih := dedupFold_spec P t (if P e then insertEntry acc e else acc) (pre ++ [e])
      step_mem step_nd
    rw [List.foldl_cons]
    constructor
    · intro x
      have hx := ih.1 x
      rwa [List.append_assoc, List.singleton_append] at hx
    · exact ih.2

theorem pairwise_insertionSort_key {α : Type} {β : Type} [LinearOrder β]
    (key : α → β) (l : List α) :
    (List.insertionSort (fun a b => key a ≤ key b) l).Pairwise
      (fun a b => key a ≤ key b) := by
  haveI : IsTotal α (fun a b => key a ≤ key b) := ⟨fun a b => le_total (key a) (key b)⟩
  haveI : IsTrans α (fun a b => key a ≤ key b) := ⟨fun _ _ _ h1 h2 => le_trans h1 h2⟩
  exact List.sorted_insertionSort _ l

theorem mem_insertionSort {α : Type} (r : α → α → Prop) [DecidableRel r]
    {l : List α} {x : α} : x ∈ List.insertionSort r l ↔ x ∈ l :=
  (List.perm_insertionSort r l).mem_iff

/-! ## C1: the timecard window/dedup filter -/

/-- C1. For every entry list and parseable ISO reference date,
`filterTimecardEntries` returns exactly the entries that are the
later-listed occurrence of their `MM/DD` string among those whose
resolved date (December resolving to the prior year when the reference
month is January) lies in the trailing 14-day window ending at and
including the reference date, sorted ascending by resolved date.
`inWindow` is the window test `refDays - 14 ≤ resolved ≤ refDays`, so an
entry dated exactly 14 days before the reference is retained and an entry
dated after it is excluded. -/
theorem filterTimecardEntries_spec (entries : List TimecardEntry) (refStr : String)
    (y : Int) (m d : Nat) (h : parseIsoDate refStr = some (y, m, d)) :
    (∀ e, e ∈ filterTimecardEntries entries refStr ↔
      (entries.filter fun z =>
        inWindow y m (isoDays y m d) z && z.date == e.date).getLast? = some e)
    ∧ (∀ e ∈ filterTimecardEntries entries refStr,
        inWindow y m (isoDays y m d) e = true)
    ∧ (filterTimecardEntries entries refStr).Pairwise
        (fun a b => entryKey y m a ≤ entryKey y m b) := by
  have base := dedupFold_spec (inWindow y m (isoDays y m d)) entries [] []
    (by intro x; simp) (by simp)
  have hout : filterTimecardEntries entries refStr =
      List.insertionSort (fun a b => entryKey y m a ≤ entryKey y m b)
        (entries.foldl
          (fun acc e => if inWindow y m (isoDays y m d) e then insertEntry acc e else acc)
          []) := by
    simp only [filterTimecardEntries, h]
  have hfold : ∀ x, x ∈ entries.foldl
      (fun acc e => if inWindow y m (isoDays y m d) e then insertEntry acc e else acc) [] ↔
      (entries.filter fun z =>
        inWindow y m (isoDays y m d) z && z.date == x.date).getLast? = some x := by
    intro x
    have hx := base.1 x
    rwa [List.nil_append] at hx
  refine ⟨?_, ?_, ?_⟩
  · intro e
    rw [hout, mem_insertionSort]
    exact hfold e
  · intro e he
    rw [hout, mem_insertionSort] at he
    have hlast := (hfold e).mp he
    have hmemf := List.mem_of_getLast?_eq_some hlast
    exact ((Bool.and_eq_true ..).mp (List.mem_filter.mp hmemf).2).1
  · rw [hout]
    exact pairwise_insertionSort_key (entryKey y m) _

/-- Witness for C1, on the spec's dedup-and-window scenario: the
hypothesis holds at reference date `2026-02-24`; the entry `02/11` (and
similarly `02/10`, exactly 14 days before) is retained, and the entry
`02/25`, dated after the reference, is excluded. -/
theorem filterTimecardEntries_spec_witness :
    parseIsoDate "2026-02-24" = some (2026, 2, 24)
    ∧ entC ∈ filterTimecardEntries [entA, entB, entC] "2026-02-24"
    ∧ entD ∈ filterTimecardEntries [entD] "2026-02-24"
    ∧ entE ∉ filterTimecardEntries [entE] "2026-02-24" := by
  refine ⟨by decide, ?_, ?_, ?_⟩
  · exact ((filterTimecardEntries_spec [entA, entB, entC] "2026-02-24" 2026 2 24
      (by decide)).1 entC).mpr (by decide)
  · exact ((filterTimecardEntries_spec [entD] "2026-02-24" 2026 2 24
      (by decide)).1 entD).mpr (by decide)
  · intro hmem
    have hlast := ((filterTimecardEntries_spec [entE] "2026-02-24" 2026 2 24
      (by decide)).1 entE).mp hmem
    exact absurd hlast (by decide)

/-! ## C2: the 50-minute discrepancy threshold -/

theorem parseTime_isEmpty_false {s : String} {n : Nat} (h : parseTime s = some n) :
    s.data.isEmpty = false := by
  unfold parseTime at h
  cases hd : s.data with
  | nil => rw [hd] at h; exact absurd h (by simp [parseTimeChars])
  | cons c cs => simp

/-- C2. For each boundary checked independently, when both time strings
are present and parsable, `detectTimecardDiscrepancy` emits the boundary's
line exactly when the absolute minute difference exceeds the fixed
50-minute threshold (`diff > THRESHOLD` with `THRESHOLD = 50`), and emits
nothing for that boundary otherwise. -/
theorem discrepancyThreshold_spec :
    (∀ (e : TimecardEntry) (sh : Shift) (c s : String) (a b : Nat),
      e.clockIn1 = some c → sh.start = some s →
      parseTime c = some a → parseTime s = some b →
      clockInLines e sh =
        if 50 < ((a : Int) - b).natAbs then
          ["  Clock In:  " ++ c ++ " (scheduled " ++ s ++ ", "
            ++ toString (((a : Int) - b).natAbs) ++ " min off)"]
        else [])
    ∧ (∀ (e : TimecardEntry) (sh : Shift) (c s : String) (a b : Nat),
      e.clockOut1 = some c → sh.endTime = some s →
      parseTime c = some a → parseTime s = some b →
      clockOutLines e sh =
        if 50 < ((a : Int) - b).natAbs then
          ["  Clock Out: " ++ c ++ " (scheduled " ++ s ++ ", "
            ++ toString (((a : Int) - b).natAbs) ++ " min off)"]
        else []) := by
  constructor
  · intro e sh c s a b h1 h2 hpc hps
    unfold clockInLines
    rw [h1, h2]
    simp only [jsTruthy, parseTime_isEmpty_false hpc, parseTime_isEmpty_false hps,
      Bool.not_false, Bool.and_self, if_true, Option.getD_some]
    unfold timeVal
    rw [hpc, hps]
    rfl
  · intro e sh c s a b h1 h2 hpc hps
    unfold clockOutLines
    rw [h1, h2]
    simp only [jsTruthy, parseTime_isEmpty_false hpc, parseTime_isEmpty_false hps,
      Bool.not_false, Bool.and_self, if_true, Option.getD_some]
    unfold timeVal
    rw [hpc, hps]
    rfl

/-- Witness for C2: a clock-in punched 51 minutes after the scheduled
start produces exactly one line, and a clock-out punched exactly 50
minutes after the scheduled end produces none. -/
theorem discrepancyThreshold_spec_witness :
    entryW.clockIn1 = some "9:51" ∧ shiftW.start = some "9:00"
    ∧ parseTime "9:51" = some 591 ∧ parseTime "9:00" = some 540
    ∧ clockInLines entryW shiftW = ["  Clock In:  9:51 (scheduled 9:00, 51 min off)"]
    ∧ clockOutLines entryW shiftW = [] := by
  refine ⟨rfl, rfl, by decide, by decide, ?_, ?_⟩
  · rw [discrepancyThreshold_spec.1 entryW shiftW "9:51" "9:00" 591 540 rfl rfl
      (by decide) (by decide)]
    decide
  · rw [discrepancyThreshold_spec.2 entryW shiftW "17:50" "17:00" 1070 1020 rfl rfl
      (by decide) (by decide)]
    decide

/-! ## C3: the time parser's accepted shapes -/

/-- Counterexample to C3: `"25:00"` is of shape `HH:MM` with hour outside
0-23, yet `parseTime` accepts it (there is no hour-range check), and a
present-but-unparseable clock-in string does not cause the boundary
comparison to be skipped: the null parse is coerced to minute 0 and a
discrepancy line is emitted against the scheduled 9:00 start. -/
theorem parseTime_claim_counterexample :
    parseTime "25:00" = some 1500 ∧ clockInLines entryBogus shiftW ≠ [] := by
  exact ⟨by decide, by decide⟩

theorem parseTimeChars_eq_some_iff (l : List Char) (n : Nat) :
    parseTimeChars l = some n ↔
      ∃ hs ms : List Char, l = hs ++ ':' :: ms ∧ (hs.length = 1 ∨ hs.length = 2)
        ∧ hs.all Char.isDigit ∧ ms.length = 2 ∧ ms.all Char.isDigit
        ∧ n = digitsVal hs * 60 + digitsVal ms := by
  constructor
  · intro h
    unfold parseTimeChars at h
    split at h
    · rename_i h1 c m1 m2
      rcases Or.symm (Bool.eq_false_or_eq_true
          (h1.isDigit && (c == ':') && m1.isDigit && m2.isDigit)) with hc | hc
      · rw [if_neg (by simp [hc])] at h
        exact absurd h (by simp)
      · rw [if_pos hc] at h
        simp only [Bool.and_eq_true, beq_iff_eq] at hc
        obtain ⟨⟨⟨hd1, rfl⟩, hd2⟩, hd3⟩ := hc
        refine ⟨[h1], [m1, m2], rfl, Or.inl rfl, by simp [hd1], rfl,
          by simp [hd2, hd3], ?_⟩
        simp only [Option.some.injEq] at h
        rw [← h]
        simp [digitsVal]
    · rename_i h1 h2 c m1 m2
      rcases Or.symm (Bool.eq_false_or_eq_true
          (h1.isDigit && h2.isDigit && (c == ':') && m1.isDigit && m2.isDigit)) with hc | hc
      · rw [if_neg (by simp [hc])] at h
        exact absurd h (by simp)
      · rw [if_pos hc] at h
        simp only [Bool.and_eq_true, beq_iff_eq] at hc
        obtain ⟨⟨⟨⟨hd1, hd2⟩, rfl⟩, hd3⟩, hd4⟩ := hc
        refine ⟨[h1, h2], [m1, m2], rfl, Or.inr rfl, by simp [hd1, hd2], rfl,
          by simp [hd3, hd4], ?_⟩
        simp only [Option.some.injEq] at h
        rw [← h]
        simp [digitsVal]
    · exact absurd h (by simp)
  · rintro ⟨hs, ms, rfl, hlen1, hdig1, hlen2, hdig2, rfl⟩
    obtain ⟨m1, m2, rfl⟩ := List.length_eq_two.mp hlen2
    simp only [List.all_cons, List.all_nil, Bool.and_eq_true, Bool.and_true] at hdig2
    rcases hlen1 with h1 | h1
    · obtain ⟨a, rfl⟩ := List.length_eq_one.mp h1
      simp only [List.all_cons, List.all_nil, Bool.and_true] at hdig1
      simp [parseTimeChars, hdig1, hdig2.1, hdig2.2, digitsVal]
    · obtain ⟨a, b, rfl⟩ := List.length_eq_two.mp h1
      simp only [List.all_cons, List.all_nil, Bool.and_eq_true, Bool.and_true] at hdig1
      simp [parseTimeChars, hdig1.1, hdig1.2, hdig2.1, hdig2.2, digitsVal]

/-- C3 as amended: `parseTime` maps a string to minutes-since-midnight
exactly when it has shape `H:MM` or `HH:MM` with a 1-2 digit hour of any
value (0-99; there is no 0-23 bound) and a two-digit minute, returning
null for every other shape without error; and when a present time string
is unparseable the checker coerces the null parse to minute 0 in the
difference instead of skipping the boundary comparison, so a line is
emitted exactly when the other side's minutes exceed the threshold. -/
theorem parseTime_amended_spec :
    (∀ (s : String) (n : Nat), parseTime s = some n ↔
      ∃ hs ms : List Char, s.data = hs ++ ':' :: ms ∧ (hs.length = 1 ∨ hs.length = 2)
        ∧ hs.all Char.isDigit ∧ ms.length = 2 ∧ ms.all Char.isDigit
        ∧ n = digitsVal hs * 60 + digitsVal ms)
    ∧ (∀ (e : TimecardEntry) (sh : Shift) (c s : String) (b : Nat),
      e.clockIn1 = some c → c.data ≠ [] → parseTime c = none →
      sh.start = some s → parseTime s = some b →
      (clockInLines e sh ≠ [] ↔ 50 < b)) := by
  constructor
  · intro s n
    exact parseTimeChars_eq_some_iff s.data n
  · intro e sh c s b h1 hne hpc h2 hps
    have hce : c.data.isEmpty = false := by
      cases hd : c.data with
      | nil => exact absurd hd hne
      | cons x xs => simp
    unfold clockInLines
    rw [h1, h2]
    simp only [jsTruthy, hce, parseTime_isEmpty_false hps, Bool.not_false, Bool.and_self,
      if_true, Option.getD_some]
    unfold timeVal
    rw [hpc, hps]
    simp only [Option.getD_none, Option.getD_some, Nat.cast_zero, Int.zero_sub,
      Int.natAbs_neg, Int.natAbs_ofNat]
    constructor
    · intro hlines
      by_contra hb
      rw [if_neg (by omega)] at hlines
      exact hlines rfl
    · intro hb
      rw [if_pos hb]
      simp

/-- Witness for C3 as amended: `"7:45"` matches the accepted shape and
parses to 465, and the unparseable clock-in `"bogus"` against the 9:00
(540-minute) scheduled start emits a line because 540 exceeds the
threshold. -/
theorem parseTime_amended_spec_witness :
    parseTime "7:45" = some 465 ∧ clockInLines entryBogus shiftW ≠ [] := by
  constructor
  · exact (parseTime_amended_spec.1 "7:45" 465).mpr
      ⟨['7'], ['4', '5'], by decide, Or.inl (by decide), by decide, by decide,
        by decide, by decide⟩
  · exact (parseTime_amended_spec.2 entryBogus shiftW "bogus" "9:00" 540 rfl
      (by decide) (by decide) rfl (by decide)).mpr (by decide)

/-! ## C4: off days and null start/end times -/

/-- Counterexample to C4: a scraped day whose details hold both a parsable
time range and an off-vocabulary line produces a `Shift` with `off = true`
and non-null `start`/`end` (the builder fills `start`/`end` from the time
match independently of the off classification). -/
theorem scraped_off_times_counterexample :
    (scrapedShift "Mon" "2026-02-23" detailsOffRange).off = true
    ∧ (scrapedShift "Mon" "2026-02-23" detailsOffRange).start = some "9:00"
    ∧ (scrapedShift "Mon" "2026-02-23" detailsOffRange).endTime = some "17:00" := by
  exact ⟨by decide, by decide, by decide⟩

theorem mem_setShift {m : List Shift} {s x : Shift} (h : x ∈ setShift m s) :
    x = s ∨ x ∈ m := by
  unfold setShift at h
  rcases Or.symm (Bool.eq_false_or_eq_true (m.any (fun t => t.date == s.date))) with ha | ha
  · rw [if_neg (by simp [ha]), List.mem_append, List.mem_singleton] at h
    exact h.symm.imp_right id
  · rw [if_pos ha, List.mem_map] at h
    obtain ⟨t, ht, heq⟩ := h
    rcases Or.symm (Bool.eq_false_or_eq_true (t.date == s.date)) with hd | hd
    · rw [if_neg (by simp [hd])] at heq
      exact Or.inr (heq ▸ ht)
    · rw [if_pos hd] at heq
      exact Or.inl heq.symm

theorem mem_setNote {m : List Shift} {k n : String} {x : Shift} (h : x ∈ setNote m k n) :
    ∃ t ∈ m, x = t ∨ x = { t with note := some n } := by
  unfold setNote at h
  rw [List.mem_map] at h
  obtain ⟨t, ht, heq⟩ := h
  rcases Or.symm (Bool.eq_false_or_eq_true (t.date == k)) with hd | hd
  · rw [if_neg (by simp [hd])] at heq
    exact ⟨t, ht, Or.inl heq.symm⟩
  · rw [if_pos hd] at heq
    exact ⟨t, ht, Or.inr heq.symm⟩

theorem foldl_mem_pres {α β : Type} (P : β → Prop) (f : List β → α → List β)
    (hstep : ∀ m a, (∀ x ∈ m, P x) → ∀ x ∈ f m a, P x) :
    ∀ (l : List α) (m : List β), (∀ x ∈ m, P x) → ∀ x ∈ l.foldl f m, P x
  | [], _, hm => by simpa using hm
  | a :: t, m, hm => by
    rw [List.foldl_cons]
    exact foldl_mem_pres P f hstep t (f m a) (hstep m a hm)

theorem fullMap_off_times (resp : ScheduleApiResponse) :
    ∀ x ∈ fullMap resp, x.off = true → x.start = none ∧ x.endTime = none := by
  have h1 : ∀ x ∈ regularMap resp, x.off = true → x.start = none ∧ x.endTime = none := by
    refine foldl_mem_pres _ applyRegular ?_ resp.regularShifts [] (by simp)
    intro m rs hm x hx
    rcases mem_setShift hx with rfl | hxm
    · intro hoff
      exact absurd hoff (by simp [shiftOfRegular])
    · exact hm x hxm
  have h2 : ∀ x ∈ holidayMap resp, x.off = true → x.start = none ∧ x.endTime = none := by
    refine foldl_mem_pres _ applyHoliday ?_ resp.holidayList (regularMap resp) h1
    intro m item hm x hx
    unfold applyHoliday at hx
    by_cases hh : hasShift m item.date = true
    · rw [if_pos hh] at hx
      obtain ⟨t, ht, hcase⟩ := mem_setNote hx
      rcases hcase with rfl | rfl
      · exact hm _ ht
      · intro hoff
        exact hm t ht hoff
    · rw [if_neg hh] at hx
      rcases mem_setShift hx with rfl | hxm
      · intro _
        exact ⟨rfl, rfl⟩
      · exact hm x hxm
  refine foldl_mem_pres _ applyTimeOff ?_ resp.timeOffRequests (holidayMap resp) h2
  intro m tor hm x hx
  unfold applyTimeOff at hx
  refine foldl_mem_pres _ _ ?_ tor.periods m hm x hx
  intro m2 p hm2 x2 hx2
  by_cases hh : hasShift m2 p.startDate = true
  · rw [if_pos hh] at hx2
    exact hm2 x2 hx2
  · rw [if_neg hh] at hx2
    rcases mem_setShift hx2 with rfl | hxm
    · intro _
      exact ⟨rfl, rfl⟩
    · exact hm2 x2 hxm

/-- C4 as amended: every `Shift` from the API normalizer satisfies the
claim (`off = true` implies `start = end = null`), and a scraped-text
`Shift` satisfies it whenever no time range is parsable from its details;
but a scraped day whose details match both a time range and the off
vocabulary keeps the parsed `start`/`end` alongside `off = true`. -/
theorem offTimes_amended_spec :
    (∀ (resp : ScheduleApiResponse), ∀ s ∈ mapApiToShifts resp,
      s.off = true → s.start = none ∧ s.endTime = none)
    ∧ (∀ (day fullDate : String) (details : List String),
      findTimeRange (String.intercalate " " details).data = none →
      (scrapedShift day fullDate details).start = none
      ∧ (scrapedShift day fullDate details).endTime = none) := by
  constructor
  · intro resp s hs
    rw [mapApiToShifts, mem_insertionSort] at hs
    exact fullMap_off_times resp s hs
  · intro day fullDate details h
    constructor <;> simp [scrapedShift, h]

/-- Witness for C4 as amended: the time-off shift for `2026-02-22` in
`respTor` is off with null times, and a scraped plain day-off (no time
range in its details) gets null `start`/`end`. -/
theorem offTimes_amended_spec_witness :
    (offShift "2026-02-22" "ROI PT Staff TOR (Full)" ∈ mapApiToShifts respTor
      ∧ (offShift "2026-02-22" "ROI PT Staff TOR (Full)").start = none)
    ∧ findTimeRange (String.intercalate " " ["Day Off"]).data = none
    ∧ (scrapedShift "Mon" "2026-02-23" ["Day Off"]).start = none := by
  refine ⟨⟨by decide, ?_⟩, by decide, ?_⟩
  · exact (offTimes_amended_spec.1 respTor (offShift "2026-02-22" "ROI PT Staff TOR (Full)")
      (by decide) (by decide)).1
  · exact (offTimes_amended_spec.2 "Mon" "2026-02-23" ["Day Off"] (by decide)).1

/-! ## Helper lemmas: `getShift` through the normalizer phases -/

theorem find?_reverse_cons {α : Type} (q : α → Bool) (x : α) (l : List α) :
    (x :: l).reverse.find? q = (l.reverse.find? q).or (if q x then some x else none) := by
  rw [List.reverse_cons, List.find?_append]
  congr 1
  rcases Or.symm (Bool.eq_false_or_eq_true (q x)) with h | h
  · simp [List.find?, h]
  · simp [List.find?, h]

theorem getShift_map_datePres (f : Shift → Shift) (hf : ∀ t, (f t).date = t.date)
    (m : List Shift) (d : String) :
    getShift (m.map f) d = (getShift m d).map f := by
  unfold getShift
  rw [List.find?_map]
  have hp : ((fun t : Shift => t.date == d) ∘ f) = (fun t : Shift => t.date == d) := by
    funext t
    simp [Function.comp, hf t]
  rw [hp]

theorem hasShift_iff {m : List Shift} {d : String} :
    hasShift m d = true ↔ ∃ t, getShift m d = some t := by
  unfold hasShift getShift
  rw [List.any_eq_true, ← Option.isSome_iff_exists, List.find?_isSome]

theorem getShift_some {m : List Shift} {d : String} {u : Shift}
    (hu : getShift m d = some u) : u.date = d ∧ u ∈ m := by
  unfold getShift at hu
  have h1 := List.find?_some hu
  simp only [beq_iff_eq] at h1
  exact ⟨h1, List.mem_of_find?_eq_some hu⟩

theorem getShift_setShift (m : List Shift) (s : Shift) (d : String) :
    getShift (setShift m s) d = if s.date = d then some s else getShift m d := by
  unfold setShift
  rcases Or.symm (Bool.eq_false_or_eq_true (m.any (fun t => t.date == s.date))) with ha | ha
  · rw [if_neg (by simp [ha])]
    unfold getShift
    rw [List.find?_append]
    by_cases hsd : s.date = d
    · have hnone : m.find? (fun t => t.date == d) = none := by
        rw [← Option.not_isSome_iff_eq_none, List.find?_isSome]
        rintro ⟨t, ht, hdt⟩
        have : m.any (fun t => t.date == s.date) = true :=
          List.any_eq_true.mpr ⟨t, ht, by rw [hsd]; exact hdt⟩
        rw [ha] at this
        exact Bool.false_ne_true this
      rw [hnone, if_pos hsd]
      simp [List.find?, beq_iff_eq.mpr hsd]
    · rw [if_neg hsd]
      have hlast : List.find? (fun t => t.date == d) [s] = none := by
        simp [List.find?, beq_eq_false_iff_ne.mpr hsd]
      rw [hlast, Option.or_none]
  · rw [if_pos ha]
    have hf : ∀ t : Shift, ((fun t : Shift => if t.date == s.date then s else t) t).date
        = t.date := by
      intro t
      rcases Or.symm (Bool.eq_false_or_eq_true (t.date == s.date)) with hd | hd
      · simp [hd]
      · simp [hd, (beq_iff_eq.mp hd).symm]
    rw [getShift_map_datePres _ hf]
    by_cases hsd : s.date = d
    · obtain ⟨t, ht, hdt⟩ := List.any_eq_true.mp ha
      have hsome : ∃ u, getShift m d = some u := by
        rw [← Option.isSome_iff_exists, getShift, List.find?_isSome]
        exact ⟨t, ht, by rw [← hsd]; exact hdt⟩
      obtain ⟨u, hu⟩ := hsome
      rw [hu, if_pos hsd]
      have hud : u.date = d := (getShift_some hu).1
      have heq : (u.date == s.date) = true := beq_iff_eq.mpr (by rw [hud, hsd])
      rw [Option.map_some', if_pos heq]
    · rw [if_neg hsd]
      cases hu : getShift m d with
      | none => rfl
      | some u =>
        have hud : u.date = d := (getShift_some hu).1
        have hne : (u.date == s.date) = false :=
          beq_eq_false_iff_ne.mpr (fun hc => hsd (by rw [← hud, hc]))
        rw [Option.map_some', if_neg (by simp [hne])]

theorem getShift_setNote (m : List Shift) (k n : String) (d : String) :
    getShift (setNote m k n) d =
      (getShift m d).map (fun t => if t.date == k then { t with note := some n } else t) := by
  unfold setNote
  apply getShift_map_datePres
  intro t
  rcases Or.symm (Bool.eq_false_or_eq_true (t.date == k)) with hd | hd
  · simp [hd]
  · simp [hd]

theorem getShift_applyRegular (m : List Shift) (rs : RegularShift) (d : String) :
    getShift (applyRegular m rs) d =
      if isoDatePart rs.startDateTime = d then some (shiftOfRegular rs)
      else getShift m d := by
  unfold applyRegular
  rw [getShift_setShift]
  rfl

theorem getShift_regularFold (rss : List RegularShift) :
    ∀ (m : List Shift) (d : String),
      getShift (rss.foldl applyRegular m) d =
        ((lastRegularFor rss d).map shiftOfRegular).or (getShift m d) := by
  induction rss with
  | nil =>
    intro m d
    simp [lastRegularFor]
  | cons rs t ih =>
    intro m d
    rw [List.foldl_cons, ih]
    have hrev : lastRegularFor (rs :: t) d =
        (lastRegularFor t d).or
          (if (isoDatePart rs.startDateTime == d) = true then some rs else none) := by
      unfold lastRegularFor
      exact find?_reverse_cons _ rs t
    rw [hrev]
    cases hl : lastRegularFor t d with
    | some rs2 => simp [Option.or_some]
    | none =>
      rw [Option.map_none', Option.none_or, Option.none_or, getShift_applyRegular]
      rcases Or.symm (Bool.eq_false_or_eq_true (isoDatePart rs.startDateTime == d))
        with hq | hq
      · rw [if_neg (beq_eq_false_iff_ne.mp hq), if_neg (by simp [hq]),
          Option.map_none', Option.none_or]
      · rw [if_pos (beq_iff_eq.mp hq), if_pos hq, Option.map_some', Option.or_some]

theorem getShift_applyHoliday (m : List Shift) (item : HolidayListItem) (d : String) :
    getShift (applyHoliday m item) d =
      if item.date = d then
        match getShift m d with
        | some t => some { t with note := some (holidayName item) }
        | none => some (offShift item.date (holidayName item))
      else getShift m d := by
  unfold applyHoliday
  rcases Or.symm (Bool.eq_false_or_eq_true (hasShift m item.date)) with hh | hh
  · rw [if_neg (by simp [hh]), getShift_setShift]
    have hkey : (offShift item.date (holidayName item)).date = item.date := rfl
    by_cases hid : item.date = d
    · rw [if_pos (hkey.trans hid), if_pos hid]
      have hnone : getShift m d = none := by
        cases hg : getShift m d with
        | none => rfl
        | some t =>
          have : hasShift m item.date = true := hasShift_iff.mpr ⟨t, by rwa [hid]⟩
          rw [hh] at this
          exact absurd this Bool.false_ne_true
      rw [hnone]
    · rw [if_neg (fun hc : (offShift item.date (holidayName item)).date = d => hid hc),
        if_neg hid]
  · rw [if_pos hh, getShift_setNote]
    by_cases hid : item.date = d
    · obtain ⟨t, ht⟩ := hasShift_iff.mp hh
      have htd : getShift m d = some t := by rwa [hid] at ht
      rw [if_pos hid, htd, Option.map_some',
        if_pos (beq_iff_eq.mpr ((getShift_some htd).1.trans hid.symm))]
    · rw [if_neg hid]
      cases hg : getShift m d with
      | none => rw [Option.map_none']
      | some t =>
        rw [Option.map_some',
          if_neg (by simp [beq_eq_false_iff_ne.mpr
            (fun hc : t.date = item.date => hid (hc ▸ (getShift_some hg).1 ▸ rfl))])]

theorem getShift_holidayFold (items : List HolidayListItem) :
    ∀ (m : List Shift) (d : String),
      getShift (items.foldl applyHoliday m) d =
        match lastHolidayFor items d, getShift m d with
        | none, g => g
        | some it, some t => some { t with note := some (holidayName it) }
        | some it, none => some (offShift d (holidayName it)) := by
  induction items with
  | nil =>
    intro m d
    simp only [List.foldl_nil, lastHolidayFor, List.reverse_nil, List.find?_nil]
  | cons item t ih =>
    intro m d
    rw [List.foldl_cons, ih]
    have hrev : lastHolidayFor (item :: t) d =
        (lastHolidayFor t d).or (if (item.date == d) = true then some item else none) := by
      unfold lastHolidayFor
      exact find?_reverse_cons _ item t
    rw [hrev, getShift_applyHoliday]
    cases hl : lastHolidayFor t d with
    | some it2 =>
      rw [Option.or_some]
      by_cases hid : item.date = d
      · subst hid
        rw [if_pos rfl]
        cases hg : getShift m item.date with
        | none => rfl
        | some u => rfl
      · rw [if_neg hid]
    | none =>
      rw [Option.none_or]
      by_cases hid : item.date = d
      · subst hid
        rw [if_pos rfl, if_pos (beq_iff_eq.mpr rfl)]
        cases hg : getShift m item.date with
        | none => rfl
        | some u => rfl
      · rw [if_neg hid, if_neg (by simp [beq_eq_false_iff_ne.mpr hid])]

theorem getShift_periodsFold_some (tor : TimeOffRequest) :
    ∀ (ps : List TimeOffPeriod) (m : List Shift) (d : String) (t : Shift),
      getShift m d = some t →
      getShift (ps.foldl
        (fun acc p =>
          if hasShift acc p.startDate then acc else setShift acc (torShift tor p.startDate))
        m) d = some t
  | [], _, _, _, h => by simpa using h
  | p :: ps, m, d, t, h => by
    rw [List.foldl_cons]
    apply getShift_periodsFold_some tor ps
    rcases Or.symm (Bool.eq_false_or_eq_true (hasShift m p.startDate)) with hh | hh
    · rw [if_neg (by simp [hh]), getShift_setShift]
      have hkey : (torShift tor p.startDate).date = p.startDate := rfl
      by_cases hpd : p.startDate = d
      · exfalso
        have : hasShift m p.startDate = true := hasShift_iff.mpr ⟨t, by rwa [hpd]⟩
        rw [hh] at this
        exact Bool.false_ne_true this
      · rwa [if_neg (fun hc : (torShift tor p.startDate).date = d => hpd hc)]
    · rwa [if_pos hh]

theorem getShift_applyTimeOff_some {m : List Shift} {tor : TimeOffRequest} {d : String}
    {t : Shift} (h : getShift m d = some t) :
    getShift (applyTimeOff m tor) d = some t := by
  unfold applyTimeOff
  exact getShift_periodsFold_some tor tor.periods m d t h

theorem getShift_torFold_some :
    ∀ (tors : List TimeOffRequest) (m : List Shift) (d : String) (t : Shift),
      getShift m d = some t → getShift (tors.foldl applyTimeOff m) d = some t
  | [], _, _, _, h => by simpa using h
  | tor :: rest, m, d, t, h => by
    rw [List.foldl_cons]
    exact getShift_torFold_some rest _ d t (getShift_applyTimeOff_some h)

theorem getShift_periodsFold_none (tor : TimeOffRequest) :
    ∀ (ps : List TimeOffPeriod) (m : List Shift) (d : String) (t : Shift),
      getShift m d = none →
      getShift (ps.foldl
        (fun acc p =>
          if hasShift acc p.startDate then acc else setShift acc (torShift tor p.startDate))
        m) d = some t →
      t = torShift tor d ∧ ∃ p ∈ ps, p.startDate = d
  | [], m, d, t, hnone, hsome => by
    rw [List.foldl_nil] at hsome
    rw [hnone] at hsome
    exact absurd hsome (by simp)
  | p :: ps, m, d, t, hnone, hsome => by
    rw [List.foldl_cons] at hsome
    by_cases hpd : p.startDate = d
    · subst hpd
      have hh : hasShift m p.startDate = false := by
        cases hb : hasShift m p.startDate with
        | false => rfl
        | true =>
          obtain ⟨u, hu⟩ := hasShift_iff.mp hb
          rw [hnone] at hu
          exact absurd hu (by simp)
      rw [if_neg (by simp [hh])] at hsome
      have hins : getShift (setShift m (torShift tor p.startDate)) p.startDate
          = some (torShift tor p.startDate) := by
        rw [getShift_setShift,
          if_pos (show (torShift tor p.startDate).date = p.startDate from rfl)]
      have := getShift_periodsFold_some tor ps _ _ _ hins
      rw [this] at hsome
      exact ⟨(Option.some.inj hsome).symm, p, List.mem_cons_self p ps, rfl⟩
    · have hstep : getShift
          (if hasShift m p.startDate then m else setShift m (torShift tor p.startDate)) d
          = none := by
        rcases Or.symm (Bool.eq_false_or_eq_true (hasShift m p.startDate)) with hh | hh
        · rw [if_neg (by simp [hh]), getShift_setShift,
            if_neg (fun hc : (torShift tor p.startDate).date = d => hpd hc)]
          exact hnone
        · rwa [if_pos hh]
      obtain ⟨ht, q, hq, hqd⟩ := getShift_periodsFold_none tor ps _ d t hstep hsome
      exact ⟨ht, q, List.mem_cons_of_mem p hq, hqd⟩

theorem getShift_torFold_none :
    ∀ (tors : List TimeOffRequest) (m : List Shift) (d : String) (t : Shift),
      getShift m d = none → getShift (tors.foldl applyTimeOff m) d = some t →
      ∃ tor ∈ tors, (∃ p ∈ tor.periods, p.startDate = d) ∧ t = torShift tor d
  | [], m, d, t, hnone, hsome => by
    rw [List.foldl_nil] at hsome
    rw [hnone] at hsome
    exact absurd hsome (by simp)
  | tor :: rest, m, d, t, hnone, hsome => by
    rw [List.foldl_cons] at hsome
    cases hm : getShift (applyTimeOff m tor) d with
    | some u =>
      have hu := getShift_torFold_some rest _ d u hm
      rw [hu] at hsome
      obtain rfl : u = t := Option.some.inj hsome
      have := getShift_periodsFold_none tor tor.periods m d u hnone
        (by unfold applyTimeOff at hm; exact hm)
      exact ⟨tor, List.mem_cons_self tor rest, this.2, this.1⟩
    | none =>
      obtain ⟨tor2, htor2, hp, ht⟩ := getShift_torFold_none rest _ d t hm hsome
      exact ⟨tor2, List.mem_cons_of_mem tor htor2, hp, ht⟩

/-! ## C6: time-off never overwrites -/

/-- C6. Processing time-off requests never changes a date that already
holds a `Shift` after the regular-shift and holiday phases, and every
shift the time-off phase adds sits on a previously empty date, is
`off = true`, and carries the note
`"<localized sub-type name> (<status name>)"`. -/
theorem timeOffNeverOverwrites_spec (resp : ScheduleApiResponse) (d : String) :
    (∀ t, getShift (holidayMap resp) d = some t → getShift (fullMap resp) d = some t)
    ∧ (getShift (holidayMap resp) d = none →
      ∀ t, getShift (fullMap resp) d = some t →
        t.off = true ∧ ∃ tor ∈ resp.timeOffRequests,
          (∃ p ∈ tor.periods, p.startDate = d) ∧ t.note = some (torNote tor)) := by
  constructor
  · intro t ht
    unfold fullMap
    exact getShift_torFold_some resp.timeOffRequests (holidayMap resp) d t ht
  · intro hnone t ht
    unfold fullMap at ht
    obtain ⟨tor, htor, hp, rfl⟩ :=
      getShift_torFold_none resp.timeOffRequests (holidayMap resp) d t hnone ht
    exact ⟨rfl, tor, htor, hp, rfl⟩

/-- Witness for C6: in `respTor` the `2026-02-21` regular shift survives
the time-off request for the same date unchanged, while the time-off-only
date `2026-02-22` gets an off shift whose note names the sub-type and
status. -/
theorem timeOffNeverOverwrites_spec_witness :
    getShift (fullMap respTor) "2026-02-21" = some (shiftOfRegular regW)
    ∧ (torShift torReq "2026-02-22").off = true := by
  constructor
  · exact (timeOffNeverOverwrites_spec respTor "2026-02-21").1 (shiftOfRegular regW)
      (by decide)
  · exact ((timeOffNeverOverwrites_spec respTor "2026-02-22").2 (by decide)
      (torShift torReq "2026-02-22") (by decide)).1

/-! ## Helper lemmas: distinct dates through the normalizer phases -/

theorem dates_nodup_setShift {m : List Shift} {s : Shift}
    (h : (m.map Shift.date).Nodup) : ((setShift m s).map Shift.date).Nodup := by
  unfold setShift
  rcases Or.symm (Bool.eq_false_or_eq_true (m.any (fun t => t.date == s.date))) with ha | ha
  · rw [if_neg (by simp [ha]), List.map_append, List.nodup_append]
    refine ⟨h, by simp, ?_⟩
    intro a hmem hb
    simp only [List.map_cons, List.map_nil, List.mem_singleton] at hb
    subst hb
    obtain ⟨t, ht, hdt⟩ := List.mem_map.mp hmem
    have hy : m.any (fun t => t.date == s.date) = true :=
      List.any_eq_true.mpr ⟨t, ht, beq_iff_eq.mpr hdt⟩
    rw [ha] at hy
    exact Bool.false_ne_true hy
  · rw [if_pos ha]
    have heq : (m.map fun t => if t.date == s.date then s else t).map Shift.date
        = m.map Shift.date := by
      rw [List.map_map]
      apply List.map_congr_left
      intro t _
      rcases Or.symm (Bool.eq_false_or_eq_true (t.date == s.date)) with hd | hd
      · simp [Function.comp, hd]
      · simp [Function.comp, hd, (beq_iff_eq.mp hd).symm]
    rw [heq]
    exact h

theorem dates_setNote (m : List Shift) (k n : String) :
    (setNote m k n).map Shift.date = m.map Shift.date := by
  unfold setNote
  rw [List.map_map]
  apply List.map_congr_left
  intro t _
  rcases Or.symm (Bool.eq_false_or_eq_true (t.date == k)) with hd | hd
  · simp [Function.comp, hd]
  · simp [Function.comp, hd]

theorem foldl_inv {α β : Type} (P : List β → Prop) (f : List β → α → List β)
    (hstep : ∀ m a, P m → P (f m a)) :
    ∀ (l : List α) (m : List β), P m → P (l.foldl f m)
  | [], _, hm => by simpa using hm
  | a :: t, m, hm => by
    rw [List.foldl_cons]
    exact foldl_inv P f hstep t (f m a) (hstep m a hm)

theorem fullMap_dates_nodup (resp : ScheduleApiResponse) :
    ((fullMap resp).map Shift.date).Nodup := by
  have h1 : ((regularMap resp).map Shift.date).Nodup := by
    refine foldl_inv (fun m => (m.map Shift.date).Nodup) applyRegular ?_
      resp.regularShifts [] (by simp)
    intro m rs hm
    exact dates_nodup_setShift hm
  have h2 : ((holidayMap resp).map Shift.date).Nodup := by
    refine foldl_inv (fun m => (m.map Shift.date).Nodup) applyHoliday ?_
      resp.holidayList (regularMap resp) h1
    intro m item hm
    unfold applyHoliday
    by_cases hh : hasShift m item.date = true
    · rw [if_pos hh, dates_setNote]
      exact hm
    · rw [if_neg hh]
      exact dates_nodup_setShift hm
  refine foldl_inv (fun m => (m.map Shift.date).Nodup) applyTimeOff ?_
    resp.timeOffRequests (holidayMap resp) h2
  intro m tor hm
  unfold applyTimeOff
  refine foldl_inv (fun m => (m.map Shift.date).Nodup) _ ?_ tor.periods m hm
  intro m2 p hm2
  by_cases hh : hasShift m2 p.startDate = true
  · rwa [if_pos hh]
  · rw [if_neg hh]
    exact dates_nodup_setShift hm2

theorem mapApiToShifts_dates_nodup (resp : ScheduleApiResponse) :
    ((mapApiToShifts resp).map Shift.date).Nodup := by
  unfold mapApiToShifts
  have hperm := (List.perm_insertionSort
    (fun a b : Shift => a.date.data ≤ b.date.data) (fullMap resp)).map Shift.date
  exact hperm.nodup_iff.mpr (fullMap_dates_nodup resp)

theorem mapApiToShifts_unique_date (resp : ScheduleApiResponse) {s t : Shift}
    (hs : s ∈ mapApiToShifts resp) (ht : t ∈ mapApiToShifts resp)
    (hd : s.date = t.date) : s = t :=
  List.inj_on_of_nodup_map (mapApiToShifts_dates_nodup resp) hs ht hd

/-! ## C8: output strictly ascending with one shift per date -/

/-- C8. For every API response, `mapApiToShifts` yields pairwise-distinct
dates (exactly one `Shift` per date) and is strictly ascending by date
string in code-point lexicographic order. -/
theorem mapApiToShifts_sorted_unique (resp : ScheduleApiResponse) :
    ((mapApiToShifts resp).map Shift.date).Nodup
    ∧ (mapApiToShifts resp).Pairwise (fun a b => a.date.data < b.date.data) := by
  refine ⟨mapApiToShifts_dates_nodup resp, ?_⟩
  have hle : (mapApiToShifts resp).Pairwise
      (fun a b => a.date.data ≤ b.date.data) := by
    unfold mapApiToShifts
    exact pairwise_insertionSort_key (fun s : Shift => s.date.data) (fullMap resp)
  have hne : (mapApiToShifts resp).Pairwise (fun a b => a.date ≠ b.date) :=
    List.pairwise_map.mp (mapApiToShifts_dates_nodup resp)
  exact (hle.and hne).imp
    (fun hab => lt_of_le_of_ne hab.1 (fun hc => hab.2 (String.ext hc)))

/-! ## C5: holiday precedence and naming -/

/-- Counterexample to C5: a holiday whose single entry has an empty
display name yields the note `"Holiday"`, not the first display name
`""` (the JS `||` default fires on the falsy empty string, not only on an
empty holiday list). -/
theorem holidayName_counterexample :
    mapApiToShifts respEmptyName = [offShift "2026-12-25" "Holiday"]
    ∧ (offShift "2026-12-25" "Holiday").note ≠ some "" := by
  exact ⟨by decide, by decide⟩

/-- C5 as amended: a date with both a regular shift and a holiday yields
exactly one `Shift`, off = false, with the (last-listed) regular shift's
start/end unaltered and note the (last-listed) holiday's first display
name, defaulting to `"Holiday"` when the holiday's list is empty or its
first display name is the empty string; a holiday on a date with no
regular shift yields an `off = true` shift with that name as note. -/
theorem holidayPrecedence_spec (resp : ScheduleApiResponse) (d : String) :
    (∀ rs item, lastRegularFor resp.regularShifts d = some rs →
      lastHolidayFor resp.holidayList d = some item →
      getShift (fullMap resp) d
        = some { shiftOfRegular rs with note := some (holidayName item) }
      ∧ (shiftOfRegular rs).off = false
      ∧ { shiftOfRegular rs with note := some (holidayName item) } ∈ mapApiToShifts resp
      ∧ (∀ s ∈ mapApiToShifts resp, s.date = d →
          s = { shiftOfRegular rs with note := some (holidayName item) }))
    ∧ (∀ item, lastRegularFor resp.regularShifts d = none →
      lastHolidayFor resp.holidayList d = some item →
      getShift (fullMap resp) d = some (offShift d (holidayName item))
      ∧ (offShift d (holidayName item)).off = true
      ∧ offShift d (holidayName item) ∈ mapApiToShifts resp) := by
  have hreg : ∀ g, lastRegularFor resp.regularShifts d = g →
      getShift (regularMap resp) d = g.map shiftOfRegular := by
    intro g hg
    unfold regularMap
    rw [getShift_regularFold resp.regularShifts [] d, hg]
    cases g with
    | none => rfl
    | some rs => rw [Option.map_some', Option.or_some]
  constructor
  · intro rs item hrs hitem
    have h1 : getShift (holidayMap resp) d
        = some { shiftOfRegular rs with note := some (holidayName item) } := by
      unfold holidayMap
      rw [getShift_holidayFold resp.holidayList (regularMap resp) d, hitem,
        hreg (some rs) hrs, Option.map_some']
    have h2 : getShift (fullMap resp) d
        = some { shiftOfRegular rs with note := some (holidayName item) } := by
      unfold fullMap
      exact getShift_torFold_some resp.timeOffRequests _ d _ h1
    have hmem : { shiftOfRegular rs with note := some (holidayName item) }
        ∈ mapApiToShifts resp := by
      rw [mapApiToShifts, mem_insertionSort]
      exact (getShift_some h2).2
    refine ⟨h2, rfl, hmem, ?_⟩
    intro s hsmem hsd
    exact mapApiToShifts_unique_date resp hsmem hmem
      (hsd.trans (getShift_some h2).1.symm)
  · intro item hrs hitem
    have h1 : getShift (holidayMap resp) d = some (offShift d (holidayName item)) := by
      unfold holidayMap
      rw [getShift_holidayFold resp.holidayList (regularMap resp) d, hitem,
        hreg none hrs, Option.map_none']
    have h2 : getShift (fullMap resp) d = some (offShift d (holidayName item)) := by
      unfold fullMap
      exact getShift_torFold_some resp.timeOffRequests _ d _ h1
    refine ⟨h2, rfl, ?_⟩
    rw [mapApiToShifts, mem_insertionSort]
    exact (getShift_some h2).2

/-- Witness for C5 as amended: in `respHol` the date `2026-02-21` carries
both the 9:00-14:00 regular shift and the St Patricks Day holiday, and the
output shift keeps the times with off = false and the holiday name as
note. -/
theorem holidayPrecedence_spec_witness :
    lastRegularFor respHol.regularShifts "2026-02-21" = some regW
    ∧ lastHolidayFor respHol.holidayList "2026-02-21" = some holW
    ∧ getShift (fullMap respHol) "2026-02-21"
        = some { shiftOfRegular regW with note := some (holidayName holW) }
    ∧ { shiftOfRegular regW with note := some (holidayName holW) }
        ∈ mapApiToShifts respHol := by
  have h := (holidayPrecedence_spec respHol "2026-02-21").1 regW holW
    (by decide) (by decide)
  exact ⟨by decide, by decide, h.1, h.2.2.1⟩

/-! ## C7: diffing a snapshot against itself -/

theorem find?_key_self {α : Type} (key : α → String) :
    ∀ (l : List α), (l.map key).Nodup → ∀ x ∈ l,
      l.find? (fun t => key t == key x) = some x
  | [], _, x, hx => absurd hx (List.not_mem_nil x)
  | a :: t, hnd, x, hx => by
    rw [List.map_cons, List.nodup_cons] at hnd
    rw [List.find?_cons]
    rcases Or.symm (Bool.eq_false_or_eq_true (key a == key x)) with hk | hk
    · rw [hk]
      have hxt : x ∈ t := by
        rcases List.mem_cons.mp hx with rfl | hmem
        · exact absurd (beq_iff_eq.mpr rfl) (by rw [hk]; exact Bool.false_ne_true)
        · exact hmem
      exact find?_key_self key t hnd.2 x hxt
    · rw [hk]
      rcases List.mem_cons.mp hx with rfl | hmem
      · rfl
      · exact absurd (beq_iff_eq.mp hk ▸ List.mem_map_of_mem key hmem) hnd.1

theorem lastShiftByDate_self {shifts : List Shift} (hnd : (shifts.map Shift.date).Nodup)
    {s : Shift} (hs : s ∈ shifts) : lastShiftByDate shifts s.date = some s := by
  unfold lastShiftByDate
  exact find?_key_self Shift.date shifts.reverse
    (by rw [List.map_reverse]; exact List.nodup_reverse.mpr hnd) s
    (List.mem_reverse.mpr hs)

theorem lastEntryByDate_self {entries : List TimecardEntry}
    (hnd : (entries.map TimecardEntry.date).Nodup)
    {e : TimecardEntry} (he : e ∈ entries) :
    lastEntryByDate entries e.date = some e := by
  unfold lastEntryByDate
  exact find?_key_self TimecardEntry.date entries.reverse
    (by rw [List.map_reverse]; exact List.nodup_reverse.mpr hnd) e
    (List.mem_reverse.mpr he)

/-- C7. Diffing a snapshot against itself yields null, for both the
schedule differ and the timecard differ (snapshots hold one record per
date, the documented invariant). -/
theorem diffSelf_spec :
    (∀ (shifts : List Shift), (shifts.map Shift.date).Nodup →
      detectScheduleChanges (some ⟨shifts⟩) ⟨shifts⟩ = none)
    ∧ (∀ (entries : List TimecardEntry), (entries.map TimecardEntry.date).Nodup →
      detectTimecardChanges (some ⟨entries⟩) ⟨entries⟩ = none) := by
  constructor
  · intro shifts hnd
    have hall : ∀ s ∈ shifts, scheduleChangeFor shifts s = none := by
      intro s hs
      unfold scheduleChangeFor
      rw [lastShiftByDate_self hnd hs]
      simp
    simp only [detectScheduleChanges]
    rw [List.filterMap_eq_nil_iff.mpr hall]
    rfl
  · intro entries hnd
    have hall : ∀ e ∈ entries, timecardChangeFor entries e = none := by
      intro e he
      unfold timecardChangeFor
      rw [lastEntryByDate_self hnd he]
      have hdiffs : trackedFields.filterMap
          (fun fl => if fl.1 e ≠ fl.1 e then
            some ("  " ++ fl.2 ++ ": " ++ (fl.1 e).getD "—" ++ " → " ++ (fl.1 e).getD "—")
          else none) = [] := by
        apply List.filterMap_eq_nil_iff.mpr
        intro fl _
        rw [if_neg (fun hc => hc rfl)]
      simp only [hdiffs]
      rfl
    simp only [detectTimecardChanges]
    rw [List.filterMap_eq_nil_iff.mpr hall]
    rfl

/-- Witness for C7: the one-shift and one-entry snapshots used throughout
diff to null against themselves. -/
theorem diffSelf_spec_witness :
    detectScheduleChanges (some ⟨[shiftW, shiftX]⟩) ⟨[shiftW, shiftX]⟩ = none
    ∧ detectTimecardChanges (some ⟨[entryW]⟩) ⟨[entryW]⟩ = none := by
  constructor
  · exact diffSelf_spec.1 [shiftW, shiftX] (by decide)
  · exact diffSelf_spec.2 [entryW] (by decide)

/-! ## C9: changed-day descriptions track start/end/off only -/

/-- C9. For a date present in both snapshots (the previous snapshot's
last-write entry for that date being `prev`), the schedule differ emits a
"changed day" description for that date exactly when one of `start`,
`end`, `off` differs; in particular a pure note change produces no
description for that date. -/
theorem scheduleChanged_iff_spec (olds : List Shift) (s prev : Shift)
    (h : lastShiftByDate olds s.date = some prev) :
    scheduleChangeFor olds s =
      (if prev.start ≠ s.start ∨ prev.endTime ≠ s.endTime ∨ prev.off ≠ s.off then
        some (formatIsoDate s.day s.date ++ " — Changed\n  Was: " ++ formatShift prev
          ++ "\n  Now: " ++ formatShift s)
      else none)
    ∧ ((scheduleChangeFor olds s).isSome ↔
      (prev.start ≠ s.start ∨ prev.endTime ≠ s.endTime ∨ prev.off ≠ s.off)) := by
  have heq : scheduleChangeFor olds s =
      (if prev.start ≠ s.start ∨ prev.endTime ≠ s.endTime ∨ prev.off ≠ s.off then
        some (formatIsoDate s.day s.date ++ " — Changed\n  Was: " ++ formatShift prev
          ++ "\n  Now: " ++ formatShift s)
      else none) := by
    unfold scheduleChangeFor
    rw [h]
  refine ⟨heq, ?_⟩
  rw [heq]
  by_cases hc : prev.start ≠ s.start ∨ prev.endTime ≠ s.endTime ∨ prev.off ≠ s.off
  · simp [hc]
  · simp [hc]

/-- Witness for C9: against a previous snapshot holding `shiftW`, the
same day with only its note changed produces no description. -/
theorem scheduleChanged_iff_spec_witness :
    lastShiftByDate [shiftW] shiftWNote.date = some shiftW
    ∧ scheduleChangeFor [shiftW] shiftWNote = none := by
  have h := scheduleChanged_iff_spec [shiftW] shiftWNote shiftW (by decide)
  refine ⟨by decide, ?_⟩
  rw [h.1]
  decide

/-! ## C10: removed days are never reported -/

theorem lastShiftByDate_concat {l : List Shift} {e : Shift} {d : String}
    (h : e.date ≠ d) : lastShiftByDate (l ++ [e]) d = lastShiftByDate l d := by
  unfold lastShiftByDate
  rw [List.reverse_append]
  simp only [List.reverse_cons, List.reverse_nil, List.nil_append, List.singleton_append,
    List.find?_cons]
  rw [show (e.date == d) = false from beq_eq_false_iff_ne.mpr h]

theorem lastEntryByDate_concat {l : List TimecardEntry} {e : TimecardEntry} {d : String}
    (h : e.date ≠ d) : lastEntryByDate (l ++ [e]) d = lastEntryByDate l d := by
  unfold lastEntryByDate
  rw [List.reverse_append]
  simp only [List.reverse_cons, List.reverse_nil, List.nil_append, List.singleton_append,
    List.find?_cons]
  rw [show (e.date == d) = false from beq_eq_false_iff_ne.mpr h]

/-- C10. A date present only in the previous snapshot produces no change
description: appending to the previous snapshot a day absent from the
current one leaves both differs' outputs unchanged (descriptions are
generated only by iterating the current snapshot). -/
theorem removedDay_noReport_spec :
    (∀ (olds : List Shift) (e : Shift) (nd : ScheduleData),
      e.date ∉ nd.shifts.map Shift.date →
      detectScheduleChanges (some ⟨olds ++ [e]⟩) nd = detectScheduleChanges (some ⟨olds⟩) nd)
    ∧ (∀ (olde : List TimecardEntry) (e : TimecardEntry) (nd : TimecardData),
      e.date ∉ nd.entries.map TimecardEntry.date →
      detectTimecardChanges (some ⟨olde ++ [e]⟩) nd
        = detectTimecardChanges (some ⟨olde⟩) nd) := by
  constructor
  · intro olds e nd hnotin
    have hcong : nd.shifts.filterMap (scheduleChangeFor (olds ++ [e]))
        = nd.shifts.filterMap (scheduleChangeFor olds) := by
      apply List.filterMap_congr
      intro s hs
      unfold scheduleChangeFor
      rw [lastShiftByDate_concat
        (fun hc => hnotin (hc ▸ List.mem_map_of_mem Shift.date hs))]
    simp only [detectScheduleChanges]
    rw [hcong]
  · intro olde e nd hnotin
    have hcong : nd.entries.filterMap (timecardChangeFor (olde ++ [e]))
        = nd.entries.filterMap (timecardChangeFor olde) := by
      apply List.filterMap_congr
      intro x hx
      unfold timecardChangeFor
      rw [lastEntryByDate_concat
        (fun hc => hnotin (hc ▸ List.mem_map_of_mem TimecardEntry.date hx))]
    simp only [detectTimecardChanges]
    rw [hcong]

/-- Witness for C10: dropping the previous-only day `2026-02-20` (resp.
the timecard date `02/15`) does not change the differ output against a
current snapshot that lacks it. -/
theorem removedDay_noReport_spec_witness :
    detectScheduleChanges (some ⟨[] ++ [shiftW]⟩) ⟨[shiftX]⟩
      = detectScheduleChanges (some ⟨[]⟩) ⟨[shiftX]⟩
    ∧ detectTimecardChanges (some ⟨[] ++ [entB]⟩) ⟨[entA]⟩
      = detectTimecardChanges (some ⟨[]⟩) ⟨[entA]⟩ := by
  constructor
  · exact removedDay_noReport_spec.1 [] shiftW ⟨[shiftX]⟩ (by decide)
  · exact removedDay_noReport_spec.2 [] entB ⟨[entA]⟩ (by decide)

end UKG
